import Mathlib

/-!
Shallow embedding of the Elering Estfeed integration's core
(`custom_components/elering_estfeed/api.py`, `history.py`, `const.py`)
and proofs about it.

Conventions of the embedding:
* Python `dict` measurement records are modelled by the structure `Meas`:
  the only field the code ever inspects is `m.get("timestamp", "")`
  (a string key), modelled by `Meas.timestamp`; all remaining payload is
  collapsed into `Meas.value` so that two records with the same timestamp
  can still differ.
* Python string comparison (used by `list.sort(key=...)`) is code-point
  lexicographic; it is modelled by `charListLe` on `String.data`.
* Python `list.sort` is a stable sort; any two stable sorts by the same
  key agree on every input, so it is modelled by `List.insertionSort`
  (Mathlib's insertion sort is stable: ties are inserted before
  later-processed, i.e. earlier-in-list, equal elements keep their order).
* Clocks (`time.monotonic()`, `datetime.now()`) are explicit `Int`
  parameters; network I/O is an explicit outcome parameter.
-/

/-- Constants from `const.py`. -/
def API_MAX_WINDOW_DAYS : Int := 31

def STORAGE_VERSION : Nat := 1

def TOKEN_EXPIRY_MARGIN : Int := 30

def RATE_LIMIT_SECONDS : Int := 5

/-- Seconds in one day: `timedelta(days=1).total_seconds()`. -/
def daySecs : Int := 86400

/-- A measurement record: the Python dicts in `history.py` are only ever
inspected through `m.get("timestamp", "")`; remaining payload is `value`. -/
structure Meas where
  timestamp : String
  value : Int
deriving Repr, DecidableEq

/-- Code-point lexicographic comparison of character lists: the model of
Python `str.__le__` used by `list.sort(key=lambda m: m.get("timestamp",""))`. -/
def charListLe : List Char → List Char → Bool
  | [], _ => true
  | _ :: _, [] => false
  | a :: as, b :: bs => if a < b then true else if b < a then false else charListLe as bs

/-- Key comparison for the sort in `_merge` / `async_get_metering_data`. -/
def measLe (a b : Meas) : Prop := charListLe a.timestamp.data b.timestamp.data = true

instance : DecidableRel measLe := fun a b =>
  inferInstanceAs (Decidable (charListLe a.timestamp.data b.timestamp.data = true))

theorem charListLe_total (as bs : List Char) :
    charListLe as bs = true ∨ charListLe bs as = true := by
  induction as generalizing bs with
  | nil => left; rfl
  | cons a as ih =>
    cases bs with
    | nil => right; rfl
    | cons b bs =>
      rcases lt_trichotomy a b with h | h | h
      · left; simp [charListLe, h]
      · subst h
        rcases ih bs with h2 | h2
        · left; simp [charListLe, lt_irrefl, h2]
        · right; simp [charListLe, lt_irrefl, h2]
      · right; simp [charListLe, h]

theorem charListLe_trans {as bs cs : List Char}
    (hab : charListLe as bs = true) (hbc : charListLe bs cs = true) :
    charListLe as cs = true := by
  induction as generalizing bs cs with
  | nil => rfl
  | cons a as ih =>
    cases bs with
    | nil => simp [charListLe] at hab
    | cons b bs =>
      cases cs with
      | nil => simp [charListLe] at hbc
      | cons c cs =>
        simp only [charListLe] at hab hbc ⊢
        rcases lt_trichotomy a b with h1 | h1 | h1
        · rcases lt_trichotomy b c with h2 | h2 | h2
          · simp [lt_trans h1 h2]
          · subst h2; simp [h1]
          · simp [h1, lt_asymm h1] at hab
            rcases lt_trichotomy a c with h3 | h3 | h3
            · simp [h3]
            · subst h3; simp [lt_irrefl]
              simp [h2, lt_asymm h2] at hbc
            · simp [h2, lt_asymm h2] at hbc
        · subst h1
          rcases lt_trichotomy a c with h2 | h2 | h2
          · simp [h2]
          · subst h2
            simp only [lt_irrefl, if_false] at hab hbc ⊢
            exact ih hab hbc
          · simp [h2, lt_asymm h2] at hbc
        · simp [h1, lt_asymm h1] at hab

instance : IsTotal Meas measLe :=
  ⟨fun a b => charListLe_total a.timestamp.data b.timestamp.data⟩

instance : IsTrans Meas measLe :=
  ⟨fun _ _ _ hab hbc => charListLe_trans hab hbc⟩

/-- The appending loop of `EleringHistoryStore._merge`: walks `new_points`
in order, keeping a point exactly when its timestamp is non-empty and not
yet in the seen set (`existing_ts`, which also accumulates kept points). -/
def mergeNew : List Meas → List String → List Meas
  | [], _ => []
  | p :: rest, seen =>
    if p.timestamp ≠ "" ∧ p.timestamp ∉ seen then
      p :: mergeNew rest (p.timestamp :: seen)
    else
      mergeNew rest seen

/-- `EleringHistoryStore._merge`: append the new, unseen points to the
cache, then re-sort the whole cache ascending by timestamp key. -/
def mergePoints (cache newPts : List Meas) : List Meas :=
  List.insertionSort measLe (cache ++ mergeNew newPts (cache.map (·.timestamp)))

theorem mergeNew_ts_nodup_fresh (pts : List Meas) (seen : List String) :
    ((mergeNew pts seen).map (·.timestamp)).Nodup ∧
      ∀ t ∈ (mergeNew pts seen).map (·.timestamp), t ∉ seen ∧ t ≠ "" := by
  induction pts generalizing seen with
  | nil => exact ⟨List.nodup_nil, by simp [mergeNew]⟩
  | cons p rest ih =>
    by_cases hc : p.timestamp ≠ "" ∧ p.timestamp ∉ seen
    · have h := ih (p.timestamp :: seen)
      constructor
      · simp only [mergeNew, if_pos hc, List.map_cons, List.nodup_cons]
        refine ⟨fun hmem => ?_, h.1⟩
        have := (h.2 _ hmem).1
        simp at this
      · intro t ht
        simp only [mergeNew, if_pos hc, List.map_cons, List.mem_cons] at ht
        rcases ht with rfl | ht
        · exact ⟨hc.2, hc.1⟩
        · have := h.2 t ht
          exact ⟨fun hmem => this.1 (List.mem_cons_of_mem _ hmem), this.2⟩
    · simpa only [mergeNew, if_neg hc] using ih seen

theorem mergeNew_mem_ts {pts : List Meas} {seen : List String} {p : Meas}
    (hp : p ∈ pts) (hne : p.timestamp ≠ "") (hns : p.timestamp ∉ seen) :
    p.timestamp ∈ (mergeNew pts seen).map (·.timestamp) := by
  induction pts generalizing seen with
  | nil => simp at hp
  | cons q rest ih =>
    by_cases hc : q.timestamp ≠ "" ∧ q.timestamp ∉ seen
    · simp only [mergeNew, if_pos hc, List.map_cons, List.mem_cons]
      rcases List.mem_cons.mp hp with rfl | hp'
      · exact Or.inl rfl
      · by_cases heq : p.timestamp = q.timestamp
        · exact Or.inl heq
        · refine Or.inr (ih hp' ?_)
          simp only [List.mem_cons, not_or]
          exact ⟨heq, hns⟩
    · simp only [mergeNew, if_neg hc]
      rcases List.mem_cons.mp hp with rfl | hp'
      · rcases not_and_or.mp hc with h | h
        · exact absurd (not_not.mp h) hne
        · exact absurd (not_not.mp h) hns
      · exact ih hp' hns

theorem mergeNew_eq_nil {pts : List Meas} {seen : List String}
    (h : ∀ p ∈ pts, p.timestamp = "" ∨ p.timestamp ∈ seen) :
    mergeNew pts seen = [] := by
  induction pts with
  | nil => rfl
  | cons p rest ih =>
    have hp := h p (List.mem_cons_self _ _)
    have hc : ¬(p.timestamp ≠ "" ∧ p.timestamp ∉ seen) := by
      rcases hp with h1 | h1
      · exact fun hc => hc.1 h1
      · exact fun hc => hc.2 h1
    simp only [mergeNew, if_neg hc]
    exact ih fun q hq => h q (List.mem_cons_of_mem _ hq)

theorem mergePoints_sorted (cache pts : List Meas) :
    List.Sorted measLe (mergePoints cache pts) :=
  List.sorted_insertionSort measLe _

theorem mergePoints_ts_nodup {cache : List Meas} (pts : List Meas)
    (h : (cache.map (·.timestamp)).Nodup) :
    ((mergePoints cache pts).map (·.timestamp)).Nodup := by
  have hperm :
      ((mergePoints cache pts).map (·.timestamp)).Perm
        ((cache ++ mergeNew pts (cache.map (·.timestamp))).map (·.timestamp)) :=
    (List.perm_insertionSort measLe _).map _
  rw [hperm.nodup_iff, List.map_append, List.nodup_append]
  have hfresh := mergeNew_ts_nodup_fresh pts (cache.map (·.timestamp))
  exact ⟨h, hfresh.1, fun t ht ht' => (hfresh.2 t ht').1 ht⟩

theorem mergePoints_mem_ts {cache pts : List Meas} {p : Meas}
    (hp : p ∈ pts) (hne : p.timestamp ≠ "") :
    p.timestamp ∈ (mergePoints cache pts).map (·.timestamp) := by
  have hperm :
      ((mergePoints cache pts).map (·.timestamp)).Perm
        ((cache ++ mergeNew pts (cache.map (·.timestamp))).map (·.timestamp)) :=
    (List.perm_insertionSort measLe _).map _
  rw [hperm.mem_iff, List.map_append, List.mem_append]
  by_cases hmem : p.timestamp ∈ cache.map (·.timestamp)
  · exact Or.inl hmem
  · exact Or.inr (mergeNew_mem_ts hp hne hmem)

theorem mergePoints_idem (c B : List Meas) :
    mergePoints (mergePoints c B) B = mergePoints c B := by
  have hsorted := mergePoints_sorted c B
  have hnil : mergeNew B ((mergePoints c B).map (·.timestamp)) = [] := by
    refine mergeNew_eq_nil fun p hp => ?_
    by_cases hne : p.timestamp = ""
    · exact Or.inl hne
    · exact Or.inr (mergePoints_mem_ts hp hne)
  simp only [mergePoints] at hsorted hnil ⊢
  rw [hnil, List.append_nil]
  exact hsorted.insertionSort_eq

/-- In-memory state of `EleringHistoryStore` (the fields mutated by
`async_load` / `_merge`). -/
structure HistState where
  measurements : List Meas
  last_fetch : Option String
deriving Repr, DecidableEq

/-- A persisted snapshot as written by `_async_save` and read back by
`async_load` (`data.get("measurements", [])`, `data.get("last_fetch")`). -/
structure StoredData where
  eic : String
  last_fetch : Option String
  point_count : Nat
  measurements : List Meas
deriving Repr, DecidableEq

/-- `EleringHistoryStore.async_load`: `Store.async_load` returning a truthy
dict is modelled by `some`; the fields are copied verbatim, with no
normalisation; otherwise the state is left unchanged. -/
def asyncLoad (stored : Option StoredData) (st : HistState) : HistState :=
  match stored with
  | some d => { st with measurements := d.measurements, last_fetch := d.last_fetch }
  | none => st

/-- One step of the `while chunk_start < end` loop of `async_fetch_history`,
with explicit fuel (each iteration strictly advances `chunk_start`, so
`(endT - start).toNat` steps always suffice). -/
def chunksGo : Nat → Int → Int → List (Int × Int)
  | 0, _, _ => []
  | fuel + 1, start, endT =>
    if start < endT then
      (start, min (start + API_MAX_WINDOW_DAYS * daySecs) endT)
        :: chunksGo fuel (min (start + API_MAX_WINDOW_DAYS * daySecs) endT) endT
    else []

/-- The chunk windows requested by `async_fetch_history` for `[start, endT)`. -/
def chunks (start endT : Int) : List (Int × Int) :=
  chunksGo (endT - start).toNat start endT

/-- The chunk windows of `async_fetch_history(days)` called at wall-clock
time `now`: `end = now`, `start = now - timedelta(days=days)`. -/
def historyChunks (now days : Int) : List (Int × Int) :=
  chunks (now - days * daySecs) now

/-- The chunk-fetch loop body of `async_fetch_history`: each window is
fetched through `async_get_metering_data` (outcome given by `f`); a
successful chunk extends `all_new`, a failed chunk is caught and skipped. -/
def collectChunks (f : Int → Int → Except Unit (List Meas)) :
    List (Int × Int) → List Meas
  | [] => []
  | c :: rest =>
    (match f c.1 c.2 with
      | Except.ok pts => pts
      | Except.error _ => []) ++ collectChunks f rest

/-- `EleringHistoryStore.async_fetch_history(days)` at wall-clock `now`:
collect all chunks, then — only when `all_new` is non-empty — merge into
the cache and persist a snapshot (`_async_save`).  Returns the new cache
and the snapshot written (`none` when nothing was persisted). -/
def fetchHistory (eic : String) (cache : List Meas) (now days : Int)
    (f : Int → Int → Except Unit (List Meas)) (nowIso : String) :
    List Meas × Option StoredData :=
  let allNew := collectChunks f (historyChunks now days)
  if allNew.isEmpty then
    (cache, none)
  else
    let merged := mergePoints cache allNew
    (merged, some ⟨eic, some nowIso, merged.length, merged⟩)

/-- `tilesB cs s e` checks that the windows `cs` tile `[s, e)` exactly:
consecutive, non-empty, gap-free and overlap-free. -/
def tilesB : List (Int × Int) → Int → Int → Bool
  | [], s, e => s == e
  | c :: rest, s, e =>
    c.1 == s && decide (s < c.2) && decide (c.2 ≤ e) && tilesB rest c.2 e

theorem chunksGo_nil_of_le {fuel : Nat} {s e : Int} (h : e ≤ s) :
    chunksGo fuel s e = [] := by
  cases fuel with
  | zero => rfl
  | succ f => simp [chunksGo, not_lt.mpr h]

theorem chunksGo_tiles {fuel : Nat} {s e : Int} (hse : s ≤ e)
    (hfuel : (e - s).toNat ≤ fuel) :
    tilesB (chunksGo fuel s e) s e = true := by
  induction fuel generalizing s with
  | zero =>
    have : s = e := by omega
    subst this
    simp [chunksGo, tilesB]
  | succ f ih =>
    by_cases h : s < e
    · have hW : API_MAX_WINDOW_DAYS * daySecs = 2678400 := by
        norm_num [API_MAX_WINDOW_DAYS, daySecs]
      simp only [chunksGo, if_pos h, tilesB, Bool.and_eq_true, beq_iff_eq,
        decide_eq_true_eq]
      refine ⟨⟨⟨by simp, ?_⟩, ?_⟩, ?_⟩
      · omega
      · exact min_le_right _ _
      · exact ih (by omega) (by omega)
    · have : s = e := by omega
      subst this
      simp [chunksGo, tilesB]

theorem chunksGo_width {fuel : Nat} {s e : Int} {c : Int × Int}
    (hc : c ∈ chunksGo fuel s e) :
    c.2 - c.1 ≤ API_MAX_WINDOW_DAYS * daySecs ∧ c.1 < c.2 := by
  induction fuel generalizing s with
  | zero => simp [chunksGo] at hc
  | succ f ih =>
    by_cases h : s < e
    · simp only [chunksGo, if_pos h, List.mem_cons] at hc
      rcases hc with rfl | hc
      · have hW : API_MAX_WINDOW_DAYS * daySecs = 2678400 := by
          norm_num [API_MAX_WINDOW_DAYS, daySecs]
        constructor <;> simp only [] <;> omega
      · exact ih hc
    · simp [chunksGo, if_neg h] at hc

theorem chunksGo_len_two {fuel : Nat} {s e : Int}
    (hfuel : (e - s).toNat ≤ fuel)
    (h1 : API_MAX_WINDOW_DAYS * daySecs < e - s)
    (h2 : e - s ≤ 2 * (API_MAX_WINDOW_DAYS * daySecs)) :
    (chunksGo fuel s e).length = 2 := by
  have hW : API_MAX_WINDOW_DAYS * daySecs = 2678400 := by
    norm_num [API_MAX_WINDOW_DAYS, daySecs]
  rw [hW] at h1 h2
  obtain ⟨f, rfl⟩ : ∃ f, fuel = f + 1 := ⟨fuel - 1, by omega⟩
  obtain ⟨g, rfl⟩ : ∃ g, f = g + 1 := ⟨f - 1, by omega⟩
  have hs : s < e := by omega
  have hmin1 : min (s + API_MAX_WINDOW_DAYS * daySecs) e = s + 2678400 := by
    rw [hW]; omega
  have hs2 : s + 2678400 < e := by omega
  have hmin2 : min (s + 2678400 + API_MAX_WINDOW_DAYS * daySecs) e = e := by
    rw [hW]; omega
  simp only [chunksGo, if_pos hs, hmin1, if_pos hs2, hmin2,
    chunksGo_nil_of_le (le_refl e), List.length_cons, List.length_nil]

/-- C3 counterexample: `async_load` copies the persisted snapshot verbatim,
so loading a snapshot whose measurement list is unsorted and contains a
duplicate timestamp key leaves the cache violating the claimed invariant. -/
theorem c3_load_invariant_counterexample :
    ¬ (List.Sorted measLe
        (asyncLoad (some ⟨"EIC", none, 3, [⟨"b", 1⟩, ⟨"a", 2⟩, ⟨"a", 3⟩]⟩)
          ⟨[], none⟩).measurements ∧
      ((asyncLoad (some ⟨"EIC", none, 3, [⟨"b", 1⟩, ⟨"a", 2⟩, ⟨"a", 3⟩]⟩)
          ⟨[], none⟩).measurements.map (·.timestamp)).Nodup) := by
  decide

/-- C3 (amended): after `_merge` the cache is always sorted ascending by
timestamp key, and it has no duplicate timestamp keys provided the prior
cache had none; `async_load` does not normalise — it sets the cache to
exactly the persisted snapshot's measurement list, so the invariant holds
after a load only when the snapshot itself satisfies it. -/
theorem c3_merge_invariant_load_verbatim :
    (∀ cache pts : List Meas, List.Sorted measLe (mergePoints cache pts)) ∧
    (∀ cache pts : List Meas, (cache.map (·.timestamp)).Nodup →
      ((mergePoints cache pts).map (·.timestamp)).Nodup) ∧
    (∀ (d : StoredData) (st : HistState),
      (asyncLoad (some d) st).measurements = d.measurements) :=
  ⟨mergePoints_sorted, fun _ pts h => mergePoints_ts_nodup pts h, fun _ _ => rfl⟩

/-- C3 witness: concrete instances of the amended claim. -/
theorem c3_witness :
    List.Sorted measLe (mergePoints [⟨"b", 1⟩] [⟨"a", 2⟩]) ∧
    ((mergePoints [⟨"b", 1⟩] [⟨"a", 2⟩, ⟨"b", 7⟩]).map (·.timestamp)).Nodup ∧
    (asyncLoad (some ⟨"E", some "t", 1, [⟨"x", 5⟩]⟩) ⟨[], none⟩).measurements
      = [⟨"x", 5⟩] :=
  ⟨c3_merge_invariant_load_verbatim.1 [⟨"b", 1⟩] [⟨"a", 2⟩],
   c3_merge_invariant_load_verbatim.2.1 [⟨"b", 1⟩] [⟨"a", 2⟩, ⟨"b", 7⟩] (by decide),
   c3_merge_invariant_load_verbatim.2.2 ⟨"E", some "t", 1, [⟨"x", 5⟩]⟩ ⟨[], none⟩⟩

/-- C4: merging the same batch twice yields exactly the same cache as
merging it once — the second `_merge` adds nothing and the re-sort of the
already-sorted cache is the identity. -/
theorem c4_merge_idempotent (c B : List Meas) :
    mergePoints (mergePoints c B) B = mergePoints c B :=
  mergePoints_idem c B

/-- C5: `async_fetch_history(days)` partitions `[now - days, now)` into
consecutive chunks (no gap, no overlap, covering the window), each chunk
spanning at most `API_MAX_WINDOW_DAYS` days; for `days = 40` there are
exactly 2 chunks (hence exactly 2 data-fetch requests, one per chunk). -/
theorem c5_history_chunking (now days : Int) (h : 1 ≤ days) :
    tilesB (historyChunks now days) (now - days * daySecs) now = true ∧
    (∀ c ∈ historyChunks now days,
      c.2 - c.1 ≤ API_MAX_WINDOW_DAYS * daySecs ∧ c.1 < c.2) ∧
    (days = 40 → (historyChunks now days).length = 2) := by
  have hday : daySecs = 86400 := rfl
  refine ⟨?_, fun c hc => chunksGo_width hc, fun h40 => ?_⟩
  · exact chunksGo_tiles (by rw [hday]; omega) le_rfl
  · subst h40
    exact chunksGo_len_two le_rfl
      (by norm_num [API_MAX_WINDOW_DAYS, daySecs])
      (by norm_num [API_MAX_WINDOW_DAYS, daySecs])

/-- C5 witness: at `now = 0`, `days = 40`, the two chunk windows tile
`[-40 days, 0)`. -/
theorem c5_history_chunking_witness :
    tilesB (historyChunks 0 40) (0 - 40 * daySecs) 0 = true ∧
    (historyChunks 0 40).length = 2 :=
  ⟨(c5_history_chunking 0 40 (by decide)).1,
   (c5_history_chunking 0 40 (by decide)).2.2 rfl⟩

/-- C2 counterexample: with cache `[{"timestamp":"a"}]` and a single chunk
returning that same point, the merge adds zero new points (the `mergeNew`
run is empty), yet `async_fetch_history` still persists a snapshot because
`all_new` is non-empty — refuting "persisted iff at least one new point was
added" and "zero new points leaves the persisted state unchanged". -/
theorem c2_save_counterexample :
    (fetchHistory "X" [⟨"a", 1⟩] 86400 1
        (fun _ _ => Except.ok [⟨"a", 1⟩]) "t").2 ≠ none ∧
    mergeNew (collectChunks (fun _ _ => Except.ok [⟨"a", 1⟩])
        (historyChunks 86400 1))
      (([⟨"a", 1⟩] : List Meas).map (·.timestamp)) = [] := by
  decide

/-- C2 (amended): `async_fetch_history` persists a snapshot if and only if
at least one point was successfully fetched (`all_new` non-empty), even
when every fetched point is already in the cache; when nothing was fetched
the cache and persisted state are left unchanged; a written snapshot holds
exactly the merged cache with its point count. -/
theorem c2_save_iff_fetched (eic : String) (cache : List Meas) (now days : Int)
    (f : Int → Int → Except Unit (List Meas)) (nowIso : String) :
    ((fetchHistory eic cache now days f nowIso).2 ≠ none ↔
      collectChunks f (historyChunks now days) ≠ []) ∧
    (collectChunks f (historyChunks now days) = [] →
      fetchHistory eic cache now days f nowIso = (cache, none)) ∧
    (∀ d, (fetchHistory eic cache now days f nowIso).2 = some d →
      d.measurements = mergePoints cache (collectChunks f (historyChunks now days)) ∧
      d.point_count = d.measurements.length ∧
      (fetchHistory eic cache now days f nowIso).1 = d.measurements) := by
  by_cases h : collectChunks f (historyChunks now days) = []
  · refine ⟨?_, ?_, ?_⟩
    · simp [fetchHistory, h]
    · intro _; simp [fetchHistory, h]
    · intro d hd; simp [fetchHistory, h] at hd
  · have h' : (collectChunks f (historyChunks now days)).isEmpty = false := by
      simpa [List.isEmpty_iff] using h
    refine ⟨?_, fun hc => absurd hc h, ?_⟩
    · simp [fetchHistory, h', h]
    · intro d hd
      simp only [fetchHistory, h', Bool.false_eq_true, if_false,
        Option.some.injEq] at hd
      subst hd
      exact ⟨rfl, rfl, by simp [fetchHistory, h']⟩

/-- C2 witness: a fetch returning an already-cached point still persists
(left), and a fetch collecting nothing persists nothing (right). -/
theorem c2_save_iff_fetched_witness :
    (fetchHistory "X" [⟨"a", 1⟩] 86400 1
        (fun _ _ => Except.ok [⟨"a", 1⟩]) "t").2 ≠ none ∧
    fetchHistory "X" [⟨"a", 1⟩] 86400 1
        (fun _ _ => Except.error ()) "t" = ([⟨"a", 1⟩], none) :=
  ⟨(c2_save_iff_fetched "X" [⟨"a", 1⟩] 86400 1
      (fun _ _ => Except.ok [⟨"a", 1⟩]) "t").1.mpr (by decide),
   (c2_save_iff_fetched "X" [⟨"a", 1⟩] 86400 1
      (fun _ _ => Except.error ()) "t").2.1 (by decide)⟩

/-- C6: a failed chunk is caught and skipped — every point of every
successful chunk is still collected (independently of any other chunk's
failure) and, when its timestamp is non-empty, ends up in the merged cache
returned by `async_fetch_history`; in the embedding `fetchHistory` is a
total function, so per-chunk failures never raise. -/
theorem c6_chunk_failure_isolated :
    (∀ (f : Int → Int → Except Unit (List Meas)) (cs : List (Int × Int))
        (a b : Int) (pts : List Meas) (p : Meas),
      (a, b) ∈ cs → f a b = Except.ok pts → p ∈ pts →
      p ∈ collectChunks f cs) ∧
    (∀ (eic : String) (cache : List Meas) (now days : Int)
        (f : Int → Int → Except Unit (List Meas)) (nowIso : String)
        (a b : Int) (pts : List Meas) (p : Meas),
      (a, b) ∈ historyChunks now days → f a b = Except.ok pts → p ∈ pts →
      p.timestamp ≠ "" →
      p.timestamp ∈ ((fetchHistory eic cache now days f nowIso).1.map (·.timestamp))) := by
  have hcollect : ∀ (f : Int → Int → Except Unit (List Meas))
      (cs : List (Int × Int)) (a b : Int) (pts : List Meas) (p : Meas),
      (a, b) ∈ cs → f a b = Except.ok pts → p ∈ pts →
      p ∈ collectChunks f cs := by
    intro f cs a b pts p hmem hok hp
    induction cs with
    | nil => simp at hmem
    | cons c rest ih =>
      rcases List.mem_cons.mp hmem with rfl | hmem'
      · simp only [collectChunks, hok, List.mem_append]
        exact Or.inl hp
      · simp only [collectChunks, List.mem_append]
        exact Or.inr (ih hmem')
  refine ⟨hcollect, ?_⟩
  intro eic cache now days f nowIso a b pts p hmem hok hp hne
  have hpin : p ∈ collectChunks f (historyChunks now days) :=
    hcollect f _ a b pts p hmem hok hp
  have h' : (collectChunks f (historyChunks now days)).isEmpty = false := by
    simpa [List.isEmpty_iff] using List.ne_nil_of_mem hpin
  simp only [fetchHistory, h', Bool.false_eq_true, if_false]
  exact mergePoints_mem_ts hpin hne

/-- C6 witness: with two chunks where the first fails and the second
returns `{"timestamp":"x"}`, the point still reaches the merged cache. -/
theorem c6_chunk_failure_isolated_witness :
    "x" ∈ ((fetchHistory "E" [] 3456000 40
        (fun a _ => if a == 0 then Except.error () else Except.ok [⟨"x", 1⟩])
        "t").1.map (·.timestamp)) :=
  c6_chunk_failure_isolated.2 "E" [] 3456000 40
    (fun a _ => if a == 0 then Except.error () else Except.ok [⟨"x", 1⟩]) "t"
    2678400 3456000 [⟨"x", 1⟩] ⟨"x", 1⟩
    (by decide) (by rfl) (by decide) (by decide)

/-- Error taxonomy of `api.py`: `EleringAuthError`, plain
`EleringEstfeedError` (protocol), `EleringConnectionError`. -/
inductive ApiError where
  | auth
  | protocol
  | conn
deriving Repr, DecidableEq

/-- Mutable state of `EleringEstfeedApiClient` (token cache and
rate-limit bookkeeping).  Clock values are `Int` seconds. -/
structure ApiState where
  access_token : Option String
  token_expiry : Int
  next_allowed_mono : Int
  last_request_time : Option Int
  blocked_count : Nat
  rate_limit_headers : List (String × Int)
deriving Repr, DecidableEq

/-- JSON body of a token-endpoint response; `none` models an absent or
null field (`result.get(...)`). -/
structure TokenBody where
  access_token : Option String
  expires_in : Option Int
deriving Repr, DecidableEq

/-- Outcome of the token-endpoint POST: an HTTP response with a status
and parsed JSON body, or a transport failure (`aiohttp.ClientError`). -/
inductive TokenOutcome where
  | response (status : Nat) (body : TokenBody)
  | transportError
deriving Repr, DecidableEq

/-- The token-exchange tail of `async_get_access_token` (everything after
the cache check): status handling, `access_token` falsiness check
(`if not access_token` — absent, null and `""` all fail), caching with
`expires_in` defaulting to 300 and the 30-second expiry margin. -/
def getAccessTokenExchange (st : ApiState) (now : Int) (out : TokenOutcome) :
    Except ApiError String × ApiState × Bool :=
  match out with
  | TokenOutcome.transportError => (Except.error ApiError.conn, st, true)
  | TokenOutcome.response status body =>
    if status = 401 ∨ status = 403 then
      (Except.error ApiError.auth, st, true)
    else if status ≠ 200 then
      (Except.error ApiError.protocol, st, true)
    else
      match body.access_token with
      | none => (Except.error ApiError.auth, st, true)
      | some tok =>
        if tok = "" then
          (Except.error ApiError.auth, st, true)
        else
          (Except.ok tok,
           { st with
              access_token := some tok,
              token_expiry := now + body.expires_in.getD 300 - TOKEN_EXPIRY_MARGIN },
           true)

/-- `async_get_access_token`: returns the result, the new state, and
whether a network exchange was attempted.  `now` is the single
`time.monotonic()` read at entry. -/
def getAccessToken (st : ApiState) (now : Int) (out : TokenOutcome) :
    Except ApiError String × ApiState × Bool :=
  match st.access_token with
  | some tok =>
    if now < st.token_expiry then
      (Except.ok tok, st, false)
    else
      getAccessTokenExchange st now out
  | none => getAccessTokenExchange st now out

/-- `_async_enforce_rate_limit`: if `now` precedes `next_allowed_mono`,
increment `blocked_count` and sleep for the remaining delta (returned as
the second component); otherwise return immediately with no change. -/
def enforceRateLimit (st : ApiState) (now : Int) : ApiState × Int :=
  if now < st.next_allowed_mono then
    ({ st with blocked_count := st.blocked_count + 1 }, st.next_allowed_mono - now)
  else
    (st, 0)

/-- One header of `_capture_rate_limit_headers`: `headers.get(header)`
then `int(value)` (a missing header or a non-integer value contributes
nothing). -/
def captureOneHeader (headers : List (String × String)) (header key : String) :
    List (String × Int) :=
  match (headers.find? (·.1 == header)).map (·.2) with
  | none => []
  | some v =>
    match v.toInt? with
    | some n => [(key, n)]
    | none => []

/-- `_capture_rate_limit_headers`: rebuild the snapshot from the three
`X-RateLimit-*` response headers. -/
def captureRateLimitHeaders (headers : List (String × String)) :
    List (String × Int) :=
  captureOneHeader headers "X-RateLimit-Limit" "rate_limit_limit" ++
    captureOneHeader headers "X-RateLimit-Remaining" "rate_limit_remaining" ++
      captureOneHeader headers "X-RateLimit-Reset" "rate_limit_reset"

/-- Outcome of the `session.request` in `_async_request`: an HTTP
response (status, headers, body read by `resp.text()`/`resp.json()`), or
a transport failure raised before any response body was obtained. -/
inductive HttpOutcome where
  | response (status : Nat) (headers : List (String × String)) (body : String)
  | transportError

/-- `_async_request`: enforce the rate limit (clock `tEnf`), obtain a
token (clock `tTok`, outcome `tokOut`), then issue the request (outcome
`reqOut`).  Only when a response is received are `last_request_time`
(wall clock `tRecWall`), `next_allowed_mono` (monotonic `tRecMono` plus
`RATE_LIMIT_SECONDS`) and the captured headers updated — the
`aiohttp.ClientError` path re-raises before those assignments run. -/
def asyncRequest (st : ApiState) (tEnf tTok : Int) (tokOut : TokenOutcome)
    (reqOut : HttpOutcome) (tRecMono tRecWall : Int) :
    Except ApiError String × ApiState :=
  let st1 := (enforceRateLimit st tEnf).1
  match getAccessToken st1 tTok tokOut with
  | (Except.error e, st2, _) => (Except.error e, st2)
  | (Except.ok _, st2, _) =>
    match reqOut with
    | HttpOutcome.transportError => (Except.error ApiError.conn, st2)
    | HttpOutcome.response status headers body =>
      let st3 :=
        { st2 with
            last_request_time := some tRecWall,
            next_allowed_mono := tRecMono + RATE_LIMIT_SECONDS,
            rate_limit_headers := captureRateLimitHeaders headers }
      if status = 401 ∨ status = 403 then
        (Except.error ApiError.auth, { st3 with access_token := none })
      else if status ≠ 200 then
        (Except.error ApiError.protocol, st3)
      else
        (Except.ok body, st3)

theorem enforceRateLimit_preserves (st : ApiState) (now : Int) :
    (enforceRateLimit st now).1.access_token = st.access_token ∧
    (enforceRateLimit st now).1.token_expiry = st.token_expiry ∧
    (enforceRateLimit st now).1.next_allowed_mono = st.next_allowed_mono ∧
    (enforceRateLimit st now).1.last_request_time = st.last_request_time ∧
    (enforceRateLimit st now).1.rate_limit_headers = st.rate_limit_headers := by
  unfold enforceRateLimit
  split <;> exact ⟨rfl, rfl, rfl, rfl, rfl⟩

theorem getAccessToken_cached {st : ApiState} {tok : String} (now : Int)
    (out : TokenOutcome) (hat : st.access_token = some tok)
    (hlt : now < st.token_expiry) :
    getAccessToken st now out = (Except.ok tok, st, false) := by
  unfold getAccessToken
  rw [hat]
  simp [hlt]

/-- C8: `async_get_access_token` returns the identical cached token with
no network call while the monotonic clock is strictly before the cached
expiry; otherwise, on a 200 exchange carrying a non-empty token, it
caches the token and sets the expiry to `now + expires_in - 30`, with
`expires_in` defaulting to 300 when the response lacks the field. -/
theorem c8_token_cache_and_refresh :
    (∀ (st : ApiState) (now : Int) (out : TokenOutcome) (tok : String),
      st.access_token = some tok → now < st.token_expiry →
      getAccessToken st now out = (Except.ok tok, st, false)) ∧
    (∀ (st : ApiState) (now : Int) (body : TokenBody) (tok : String),
      st.access_token = none ∨ st.token_expiry ≤ now →
      body.access_token = some tok → tok ≠ "" →
      getAccessToken st now (TokenOutcome.response 200 body) =
        (Except.ok tok,
         { st with
            access_token := some tok,
            token_expiry := now + body.expires_in.getD 300 - 30 },
         true)) := by
  constructor
  · intro st now out tok hat hlt
    exact getAccessToken_cached now out hat hlt
  · intro st now body tok hstale hbody htok
    have hex : getAccessTokenExchange st now (TokenOutcome.response 200 body) =
        (Except.ok tok,
         { st with
            access_token := some tok,
            token_expiry := now + body.expires_in.getD 300 - 30 },
         true) := by
      simp [getAccessTokenExchange, hbody, htok, TOKEN_EXPIRY_MARGIN]
    rcases hstale with h | h
    · unfold getAccessToken
      rw [h]
      exact hex
    · unfold getAccessToken
      cases hat : st.access_token with
      | none => exact hex
      | some t => simp [not_lt.mpr h, hex]

/-- C8 witness: a valid cached token is returned unchanged with no
network call; an expired cache plus a 200 exchange without `expires_in`
gives expiry `50 + 300 - 30 = 320`. -/
theorem c8_token_cache_and_refresh_witness :
    getAccessToken ⟨some "tok", 100, 0, none, 0, []⟩ 50
        TokenOutcome.transportError =
      (Except.ok "tok", ⟨some "tok", 100, 0, none, 0, []⟩, false) ∧
    getAccessToken ⟨none, 0, 7, none, 2, []⟩ 50
        (TokenOutcome.response 200 ⟨some "t2", none⟩) =
      (Except.ok "t2", ⟨some "t2", 320, 7, none, 2, []⟩, true) :=
  ⟨c8_token_cache_and_refresh.1 ⟨some "tok", 100, 0, none, 0, []⟩ 50
      TokenOutcome.transportError "tok" rfl (by decide),
   c8_token_cache_and_refresh.2 ⟨none, 0, 7, none, 2, []⟩ 50
      ⟨some "t2", none⟩ "t2" (Or.inl rfl) rfl (by decide)⟩

/-- C10: a token exchange answering HTTP 200 whose body carries no
`access_token`, a null one, or the empty string, raises
`EleringAuthError` and leaves the cached token and expiry unchanged. -/
theorem c10_falsy_token_auth_error (st : ApiState) (now : Int)
    (body : TokenBody)
    (hstale : st.access_token = none ∨ st.token_expiry ≤ now)
    (hbody : body.access_token = none ∨ body.access_token = some "") :
    getAccessToken st now (TokenOutcome.response 200 body) =
      (Except.error ApiError.auth, st, true) := by
  have hex : getAccessTokenExchange st now (TokenOutcome.response 200 body) =
      (Except.error ApiError.auth, st, true) := by
    rcases hbody with h | h <;> simp [getAccessTokenExchange, h]
  rcases hstale with h | h
  · unfold getAccessToken
    rw [h]
    exact hex
  · unfold getAccessToken
    cases hat : st.access_token with
    | none => exact hex
    | some t => simp [not_lt.mpr h, hex]

/-- C10 witness: absent and empty-string tokens both fail with the state
untouched. -/
theorem c10_falsy_token_auth_error_witness :
    getAccessToken ⟨none, 0, 7, some 3, 2, [("rate_limit_limit", 9)]⟩ 50
        (TokenOutcome.response 200 ⟨none, some 600⟩) =
      (Except.error ApiError.auth,
       ⟨none, 0, 7, some 3, 2, [("rate_limit_limit", 9)]⟩, true) ∧
    getAccessToken ⟨some "old", 40, 0, none, 0, []⟩ 50
        (TokenOutcome.response 200 ⟨some "", some 600⟩) =
      (Except.error ApiError.auth, ⟨some "old", 40, 0, none, 0, []⟩, true) :=
  ⟨c10_falsy_token_auth_error ⟨none, 0, 7, some 3, 2, [("rate_limit_limit", 9)]⟩
      50 ⟨none, some 600⟩ (Or.inl rfl) (Or.inl rfl),
   c10_falsy_token_auth_error ⟨some "old", 40, 0, none, 0, []⟩ 50
      ⟨some "", some 600⟩ (Or.inr (by decide)) (Or.inr rfl)⟩

/-- C9: `_async_enforce_rate_limit` sleeps exactly
`next_allowed - now` and increments `blocked_count` by one when `now`
strictly precedes `next_allowed`, and otherwise returns immediately with
no state change; over any sequence of calls, `blocked_count` grows by
exactly the number of calls that had to wait. -/
theorem c9_enforce_rate_limit :
    (∀ (st : ApiState) (now : Int), now < st.next_allowed_mono →
      enforceRateLimit st now =
        ({ st with blocked_count := st.blocked_count + 1 },
         st.next_allowed_mono - now)) ∧
    (∀ (st : ApiState) (now : Int), st.next_allowed_mono ≤ now →
      enforceRateLimit st now = (st, 0)) ∧
    (∀ (st : ApiState) (ts : List Int),
      (ts.foldl (fun s t => (enforceRateLimit s t).1) st).blocked_count =
        st.blocked_count +
          ts.countP (fun t => decide (t < st.next_allowed_mono))) := by
  refine ⟨?_, ?_, ?_⟩
  · intro st now h
    simp [enforceRateLimit, h]
  · intro st now h
    simp [enforceRateLimit, not_lt.mpr h]
  · intro st ts
    induction ts generalizing st with
    | nil => simp
    | cons t rest ih =>
      have hna : (enforceRateLimit st t).1.next_allowed_mono =
          st.next_allowed_mono := by
        unfold enforceRateLimit
        split <;> rfl
      have hbc : (enforceRateLimit st t).1.blocked_count =
          st.blocked_count + (if t < st.next_allowed_mono then 1 else 0) := by
        unfold enforceRateLimit
        split <;> simp
      rw [List.foldl_cons, ih ((enforceRateLimit st t).1), hna, hbc,
        List.countP_cons]
      by_cases h : t < st.next_allowed_mono <;> (simp [h]; try omega)

/-- C9 witness: one blocking call (wait 7, count 0 → 1) and one
non-blocking call (no change, wait 0); a two-call sequence with one wait
raises the count by exactly one. -/
theorem c9_enforce_rate_limit_witness :
    enforceRateLimit ⟨none, 0, 10, none, 0, []⟩ 3 =
      (⟨none, 0, 10, none, 1, []⟩, 7) ∧
    enforceRateLimit ⟨none, 0, 10, none, 0, []⟩ 12 =
      (⟨none, 0, 10, none, 0, []⟩, 0) ∧
    (([3, 12] : List Int).foldl
        (fun s t => (enforceRateLimit s t).1) ⟨none, 0, 10, none, 0, []⟩).blocked_count =
      0 + ([3, 12] : List Int).countP (fun t => decide (t < 10)) :=
  ⟨c9_enforce_rate_limit.1 ⟨none, 0, 10, none, 0, []⟩ 3 (by decide),
   c9_enforce_rate_limit.2.1 ⟨none, 0, 10, none, 0, []⟩ 12 (by decide),
   c9_enforce_rate_limit.2.2 ⟨none, 0, 10, none, 0, []⟩ [3, 12]⟩

/-- C1 counterexample: on a transport failure
(`aiohttp.ClientError` — no response received) `_async_request`
re-raises before the recording assignments run, so with a valid cached
token the rate-limit state is left exactly as it was:
`last_request_time` stays `none` instead of becoming the current wall
clock `9`, refuting "the rate-limit state is updated afterwards
regardless of the request's outcome". -/
theorem c1_transport_failure_counterexample :
    asyncRequest ⟨some "tok", 10, 0, none, 0, []⟩ 0 0
        TokenOutcome.transportError HttpOutcome.transportError 7 9 =
      (Except.error ApiError.conn, ⟨some "tok", 10, 0, none, 0, []⟩) ∧
    ¬ ((asyncRequest ⟨some "tok", 10, 0, none, 0, []⟩ 0 0
        TokenOutcome.transportError HttpOutcome.transportError 7 9).2.last_request_time
          = some 9) :=
  ⟨rfl, by decide⟩

theorem getAccessTokenExchange_preserves (st : ApiState) (now : Int)
    (out : TokenOutcome) :
    (getAccessTokenExchange st now out).2.1.next_allowed_mono = st.next_allowed_mono ∧
    (getAccessTokenExchange st now out).2.1.last_request_time = st.last_request_time ∧
    (getAccessTokenExchange st now out).2.1.rate_limit_headers = st.rate_limit_headers := by
  cases out with
  | transportError => exact ⟨rfl, rfl, rfl⟩
  | response status body =>
    by_cases h1 : status = 401 ∨ status = 403
    · simp [getAccessTokenExchange, h1]
    · by_cases h2 : status = 200
      · cases hat : body.access_token with
        | none => simp [getAccessTokenExchange, h1, h2, hat]
        | some tok =>
          by_cases he : tok = "" <;>
            simp [getAccessTokenExchange, h1, h2, hat, he]
      · simp [getAccessTokenExchange, h1, h2]

theorem getAccessToken_preserves (st : ApiState) (now : Int)
    (out : TokenOutcome) :
    (getAccessToken st now out).2.1.next_allowed_mono = st.next_allowed_mono ∧
    (getAccessToken st now out).2.1.last_request_time = st.last_request_time ∧
    (getAccessToken st now out).2.1.rate_limit_headers = st.rate_limit_headers := by
  cases hat : st.access_token with
  | none =>
    simp only [getAccessToken, hat]
    exact getAccessTokenExchange_preserves st now out
  | some tok =>
    simp only [getAccessToken, hat]
    split
    · exact ⟨rfl, rfl, rfl⟩
    · exact getAccessTokenExchange_preserves st now out

/-- C1 (amended): for every authenticated request that yields an HTTP
response — any status, including 401/403 and other errors, and whether
the bearer token came from the cache or from a fresh exchange —
`_async_request` afterwards sets `last_request_time` to the current wall
clock, `next_allowed_mono` to the current monotonic time plus
`RATE_LIMIT_SECONDS` (5 s), and replaces the captured rate-limit headers
with those of the response; on a transport failure, where no response is
received, all three fields are left unchanged (unconditionally — also
when the token step itself failed and no request went out). -/
theorem c1_record_only_on_response :
    (∀ (st : ApiState) (tEnf tTok : Int) (tokOut : TokenOutcome)
        (status : Nat) (headers : List (String × String)) (body : String)
        (tRecMono tRecWall : Int) (tok : String),
      (getAccessToken (enforceRateLimit st tEnf).1 tTok tokOut).1 = Except.ok tok →
      (asyncRequest st tEnf tTok tokOut
          (HttpOutcome.response status headers body) tRecMono tRecWall).2.last_request_time
            = some tRecWall ∧
      (asyncRequest st tEnf tTok tokOut
          (HttpOutcome.response status headers body) tRecMono tRecWall).2.next_allowed_mono
            = tRecMono + RATE_LIMIT_SECONDS ∧
      (asyncRequest st tEnf tTok tokOut
          (HttpOutcome.response status headers body) tRecMono tRecWall).2.rate_limit_headers
            = captureRateLimitHeaders headers) ∧
    (∀ (st : ApiState) (tEnf tTok : Int) (tokOut : TokenOutcome)
        (tRecMono tRecWall : Int),
      (asyncRequest st tEnf tTok tokOut
          HttpOutcome.transportError tRecMono tRecWall).2.last_request_time
            = st.last_request_time ∧
      (asyncRequest st tEnf tTok tokOut
          HttpOutcome.transportError tRecMono tRecWall).2.next_allowed_mono
            = st.next_allowed_mono ∧
      (asyncRequest st tEnf tTok tokOut
          HttpOutcome.transportError tRecMono tRecWall).2.rate_limit_headers
            = st.rate_limit_headers) := by
  constructor
  · intro st tEnf tTok tokOut status headers body tRecMono tRecWall tok htok
    simp only [asyncRequest]
    split
    · rename_i e st2 b heq
      rw [heq] at htok
      simp at htok
    · rename_i tk st2 b heq
      refine ⟨?_, ?_, ?_⟩ <;>
        · split
          · rfl
          · split
            · rfl
            · rfl
  · intro st tEnf tTok tokOut tRecMono tRecWall
    have h1 := enforceRateLimit_preserves st tEnf
    have h2 := getAccessToken_preserves (enforceRateLimit st tEnf).1 tTok tokOut
    simp only [asyncRequest]
    split
    · rename_i e st2 b heq
      rw [heq] at h2
      exact ⟨h2.2.1.trans h1.2.2.2.1, h2.1.trans h1.2.2.1,
        h2.2.2.trans h1.2.2.2.2⟩
    · rename_i tk st2 b heq
      rw [heq] at h2
      exact ⟨h2.2.1.trans h1.2.2.2.1, h2.1.trans h1.2.2.1,
        h2.2.2.trans h1.2.2.2.2⟩

/-- C1 witness: starting with an empty token cache, the bearer token
comes from a fresh exchange and the 500 response still updates the
rate-limit fields; a transport failure leaves them untouched. -/
theorem c1_record_only_on_response_witness :
    (asyncRequest ⟨none, 0, 0, none, 0, []⟩ 0 0
        (TokenOutcome.response 200 ⟨some "t", none⟩)
        (HttpOutcome.response 500 [("X-RateLimit-Limit", "60")] "oops")
        7 9).2.last_request_time = some 9 ∧
    (asyncRequest ⟨none, 0, 0, none, 0, []⟩ 0 0
        (TokenOutcome.response 200 ⟨some "t", none⟩)
        (HttpOutcome.response 500 [("X-RateLimit-Limit", "60")] "oops")
        7 9).2.next_allowed_mono = 7 + RATE_LIMIT_SECONDS ∧
    (asyncRequest ⟨none, 0, 0, none, 0, []⟩ 0 0
        (TokenOutcome.response 200 ⟨some "t", none⟩)
        HttpOutcome.transportError 7 9).2.next_allowed_mono = 0 :=
  ⟨(c1_record_only_on_response.1 ⟨none, 0, 0, none, 0, []⟩ 0 0
      (TokenOutcome.response 200 ⟨some "t", none⟩) 500
      [("X-RateLimit-Limit", "60")] "oops" 7 9 "t" rfl).1,
   (c1_record_only_on_response.1 ⟨none, 0, 0, none, 0, []⟩ 0 0
      (TokenOutcome.response 200 ⟨some "t", none⟩) 500
      [("X-RateLimit-Limit", "60")] "oops" 7 9 "t" rfl).2.1,
   (c1_record_only_on_response.2 ⟨none, 0, 0, none, 0, []⟩ 0 0
      (TokenOutcome.response 200 ⟨some "t", none⟩) 7 9).2.1⟩

/-- JSON values, as Python sees a parsed metering-data response. -/
inductive Json where
  | null
  | bool (b : Bool)
  | num (n : Int)
  | str (s : String)
  | arr (xs : List Json)
  | obj (kvs : List (String × Json))

/-- Python truthiness of a JSON value (`None`, `False`, `0`, `""`, `[]`
and `{}` are falsy). -/
def Json.truthy : Json → Bool
  | Json.null => false
  | Json.bool b => b
  | Json.num n => n != 0
  | Json.str s => !(s == "")
  | Json.arr xs => !xs.isEmpty
  | Json.obj kvs => !kvs.isEmpty

/-- `d.get(k)` on a dict: `some` the first binding of `k`, else `none`
(and `none` for every non-dict, which Python never reaches here). -/
def Json.get : Json → String → Option Json
  | Json.obj kvs, k => (kvs.find? (·.1 == k)).map (·.2)
  | _, _ => none

/-- Python `x or y` for `x` an optional lookup result: `x` when present
and truthy, else `y`. -/
def orElseJson (a : Option Json) (b : Json) : Json :=
  match a with
  | some v => if v.truthy then v else b
  | none => b

/-- `isinstance(item, dict) and "measurements" in item`. -/
def isWrapperItem : Json → Bool
  | Json.obj kvs => kvs.any (·.1 == "measurements")
  | _ => false

/-- `item["measurements"]` (only evaluated when the key is present). -/
def measurementsOf (item : Json) : Json :=
  (item.get "measurements").getD Json.null

/-- `item.get("meteringPointEic") or item.get("eic") or ""`. -/
def wrapperEic (item : Json) : Json :=
  orElseJson (item.get "meteringPointEic") (orElseJson (item.get "eic") (Json.str ""))

/-- Python `item_eic == eic` where `eic` is a `str`. -/
def jsonEqStr : Json → String → Bool
  | Json.str s, t => s == t
  | _, _ => false

/-- The top-level unwrap of `_extract_measurements`: a dict goes through
`data.get("meteringData") or data.get("data") or data.get("content")
or data.get("measurements") or []`; anything else passes through. -/
def unwrapTop (data : Json) : Json :=
  match data with
  | Json.obj kvs =>
    orElseJson ((Json.obj kvs).get "meteringData")
      (orElseJson ((Json.obj kvs).get "data")
        (orElseJson ((Json.obj kvs).get "content")
          (orElseJson ((Json.obj kvs).get "measurements") (Json.arr []))))
  | d => d

/-- The `for item in data` scan of `_extract_measurements` (`whole` is the
list being iterated, needed for the `len(data) == 1` check and for the
`return data` arm on the first non-wrapper entry). -/
def extractLoop (eic : String) (whole : List Json) : List Json → Json
  | [] => Json.arr []
  | item :: rest =>
    if isWrapperItem item then
      if jsonEqStr (wrapperEic item) eic then
        measurementsOf item
      else if whole.length == 1 then
        measurementsOf item
      else
        extractLoop eic whole rest
    else
      Json.arr whole

/-- `_extract_measurements(data, eic)`: unwrap a top-level dict, give up
(empty list) on a non-list, then scan the entries. -/
def extractMeasurements (data : Json) (eic : String) : Json :=
  match unwrapTop data with
  | Json.arr xs => extractLoop eic xs xs
  | _ => Json.arr []

theorem orElseJson_of_falsy {a : Option Json} (b : Json)
    (h : ∀ v, a = some v → v.truthy = false) : orElseJson a b = b := by
  cases a with
  | none => rfl
  | some v => simp [orElseJson, h v rfl]

theorem extractLoop_skip {eic : String} {whole : List Json}
    (hlen : whole.length ≠ 1) {pre rest : List Json}
    (hpre : ∀ x ∈ pre,
      isWrapperItem x = true ∧ jsonEqStr (wrapperEic x) eic = false) :
    extractLoop eic whole (pre ++ rest) = extractLoop eic whole rest := by
  induction pre with
  | nil => rfl
  | cons x pre ih =>
    have hx := hpre x (List.mem_cons_self _ _)
    simp only [List.cons_append, extractLoop, hx.1, hx.2, if_true,
      Bool.false_eq_true, if_false, beq_iff_eq, hlen]
    exact ih fun y hy => hpre y (List.mem_cons_of_mem _ hy)

theorem unwrapTop_obj_eq {kvs : List (String × Json)} {pre post : List String}
    {k : String} {v : Json}
    (hsplit : pre ++ k :: post = ["meteringData", "data", "content", "measurements"])
    (hfalsy : ∀ k' ∈ pre, ∀ u, (Json.obj kvs).get k' = some u → u.truthy = false)
    (hget : (Json.obj kvs).get k = some v) (htr : v.truthy = true) :
    unwrapTop (Json.obj kvs) = v := by
  rcases pre with _ | ⟨a, _ | ⟨b, _ | ⟨c, _ | ⟨d, pre⟩⟩⟩⟩
  · simp only [List.nil_append, List.cons.injEq] at hsplit
    obtain ⟨rfl, -⟩ := hsplit
    simp only [unwrapTop]
    rw [hget]
    simp [orElseJson, htr]
  · simp only [List.cons_append, List.nil_append, List.cons.injEq] at hsplit
    obtain ⟨rfl, rfl, -⟩ := hsplit
    simp only [unwrapTop]
    rw [orElseJson_of_falsy _ (fun u hu => hfalsy "meteringData" (by simp) u hu),
      hget]
    simp [orElseJson, htr]
  · simp only [List.cons_append, List.nil_append, List.cons.injEq] at hsplit
    obtain ⟨rfl, rfl, rfl, -⟩ := hsplit
    simp only [unwrapTop]
    rw [orElseJson_of_falsy _ (fun u hu => hfalsy "meteringData" (by simp) u hu),
      orElseJson_of_falsy _ (fun u hu => hfalsy "data" (by simp) u hu), hget]
    simp [orElseJson, htr]
  · simp only [List.cons_append, List.nil_append, List.cons.injEq] at hsplit
    obtain ⟨rfl, rfl, rfl, rfl, -⟩ := hsplit
    simp only [unwrapTop]
    rw [orElseJson_of_falsy _ (fun u hu => hfalsy "meteringData" (by simp) u hu),
      orElseJson_of_falsy _ (fun u hu => hfalsy "data" (by simp) u hu),
      orElseJson_of_falsy _ (fun u hu => hfalsy "content" (by simp) u hu), hget]
    simp [orElseJson, htr]
  · simp only [List.cons_append, List.cons.injEq] at hsplit
    obtain ⟨-, -, -, -, h⟩ := hsplit
    exact absurd h (by simp)

/-- C7: the response normalizer `_extract_measurements` resolves every
shape as specified.  Top-level dict: whichever key of the fixed
preference list `["meteringData", "data", "content", "measurements"]`
is the first with a truthy value is the one unwrapped — a truthy list
there is then processed exactly like a bare list, a truthy non-list
yields an empty result, and a dict where all four keys are absent or
falsy yields an empty result; a top-level value that is neither a dict
nor a list also yields an empty result, never raising.  List values: the
first wrapper whose EIC field equals the requested `eic` supplies its
nested measurements; a sole wrapper is used regardless of EIC match; a
list starting with a flat (non-wrapper) record is returned as-is; and a
list of two or more wrappers none of which matches yields an empty
result. -/
theorem c7_extract_measurements :
    (∀ (kvs : List (String × Json)) (eic : String) (pre : List String)
        (k : String) (post : List String) (xs : List Json),
      pre ++ k :: post = ["meteringData", "data", "content", "measurements"] →
      (∀ k' ∈ pre, ∀ u, (Json.obj kvs).get k' = some u → u.truthy = false) →
      (Json.obj kvs).get k = some (Json.arr xs) → xs ≠ [] →
      extractMeasurements (Json.obj kvs) eic =
        extractMeasurements (Json.arr xs) eic) ∧
    (∀ (kvs : List (String × Json)) (eic : String),
      (∀ k ∈ ["meteringData", "data", "content", "measurements"],
        ∀ v, (Json.obj kvs).get k = some v → v.truthy = false) →
      extractMeasurements (Json.obj kvs) eic = Json.arr []) ∧
    (∀ (kvs : List (String × Json)) (eic : String) (pre : List String)
        (k : String) (post : List String) (v : Json),
      pre ++ k :: post = ["meteringData", "data", "content", "measurements"] →
      (∀ k' ∈ pre, ∀ u, (Json.obj kvs).get k' = some u → u.truthy = false) →
      (Json.obj kvs).get k = some v → v.truthy = true →
      (∀ xs, v ≠ Json.arr xs) →
      extractMeasurements (Json.obj kvs) eic = Json.arr []) ∧
    (∀ (d : Json) (eic : String),
      (∀ xs, d ≠ Json.arr xs) → (∀ kvs, d ≠ Json.obj kvs) →
      extractMeasurements d eic = Json.arr []) ∧
    (∀ (eic : String) (pre : List Json) (w : Json) (post : List Json),
      (∀ x ∈ pre,
        isWrapperItem x = true ∧ jsonEqStr (wrapperEic x) eic = false) →
      isWrapperItem w = true → jsonEqStr (wrapperEic w) eic = true →
      extractMeasurements (Json.arr (pre ++ w :: post)) eic =
        measurementsOf w) ∧
    (∀ (w : Json) (eic : String), isWrapperItem w = true →
      extractMeasurements (Json.arr [w]) eic = measurementsOf w) ∧
    (∀ (x : Json) (rest : List Json) (eic : String),
      isWrapperItem x = false →
      extractMeasurements (Json.arr (x :: rest)) eic =
        Json.arr (x :: rest)) ∧
    (∀ (xs : List Json) (eic : String), xs.length ≠ 1 →
      (∀ x ∈ xs,
        isWrapperItem x = true ∧ jsonEqStr (wrapperEic x) eic = false) →
      extractMeasurements (Json.arr xs) eic = Json.arr []) := by
  refine ⟨?_, ?_, ?_, ?_, ?_, ?_, ?_, ?_⟩
  · intro kvs eic pre k post xs hsplit hfalsy hget hne
    have htr : (Json.arr xs).truthy = true := by
      cases xs with
      | nil => exact absurd rfl hne
      | cons y ys => rfl
    have hu := unwrapTop_obj_eq hsplit hfalsy hget htr
    simp only [extractMeasurements]
    rw [hu]
    rfl
  · intro kvs eic hfalsy
    simp only [extractMeasurements, unwrapTop]
    rw [orElseJson_of_falsy _ (fun v hv => hfalsy "meteringData" (by simp) v hv),
      orElseJson_of_falsy _ (fun v hv => hfalsy "data" (by simp) v hv),
      orElseJson_of_falsy _ (fun v hv => hfalsy "content" (by simp) v hv),
      orElseJson_of_falsy _ (fun v hv => hfalsy "measurements" (by simp) v hv)]
    rfl
  · intro kvs eic pre k post v hsplit hfalsy hget htr hnotarr
    have hu := unwrapTop_obj_eq hsplit hfalsy hget htr
    simp only [extractMeasurements]
    rw [hu]
    cases v with
    | arr xs => exact absurd rfl (hnotarr xs)
    | null => rfl
    | bool b => rfl
    | num n => rfl
    | str s => rfl
    | obj kvs' => rfl
  · intro d eic hnotarr hnotobj
    cases d with
    | arr xs => exact absurd rfl (hnotarr xs)
    | obj kvs => exact absurd rfl (hnotobj kvs)
    | null => rfl
    | bool b => rfl
    | num n => rfl
    | str s => rfl
  · intro eic pre w post hpre hw hmatch
    by_cases hlen : (pre ++ w :: post).length = 1
    · have hpre_nil : pre = [] := by
        cases pre with
        | nil => rfl
        | cons y ys => simp [List.length_append] at hlen
      subst hpre_nil
      simp [extractMeasurements, unwrapTop, extractLoop, hw, hmatch]
    · simp only [extractMeasurements, unwrapTop]
      rw [extractLoop_skip hlen hpre]
      simp [extractLoop, hw, hmatch]
  · intro w eic hw
    by_cases hm : jsonEqStr (wrapperEic w) eic = true <;>
      simp [extractMeasurements, unwrapTop, extractLoop, hw, hm]
  · intro x rest eic hx
    simp [extractMeasurements, unwrapTop, extractLoop, hx]
  · intro xs eic hlen hall
    simp only [extractMeasurements, unwrapTop]
    have h := @extractLoop_skip eic xs hlen xs [] hall
    rw [List.append_nil] at h
    rw [h]
    rfl

/-- C7 witness: concrete instances — unwrap via the second preference
key `"data"`, the spec's wrapper/flat/unrecognized-dict examples, a
truthy non-list unwrap value, and a non-dict non-list top value. -/
theorem c7_extract_measurements_witness :
    extractMeasurements
        (Json.obj [("data",
          Json.arr [Json.obj [("timestamp", Json.str "t")]])]) "A" =
      extractMeasurements (Json.arr [Json.obj [("timestamp", Json.str "t")]]) "A" ∧
    extractMeasurements (Json.obj [("foo", Json.str "x")]) "A" = Json.arr [] ∧
    extractMeasurements (Json.obj [("content", Json.str "weird")]) "A" =
      Json.arr [] ∧
    extractMeasurements (Json.str "zap") "A" = Json.arr [] ∧
    extractMeasurements
        (Json.arr [Json.obj [("eic", Json.str "B"),
            ("measurements", Json.arr [Json.num 2])],
          Json.obj [("eic", Json.str "A"),
            ("measurements", Json.arr [Json.num 1])]]) "A" =
      Json.arr [Json.num 1] ∧
    extractMeasurements
        (Json.arr [Json.obj [("eic", Json.str "B"),
          ("measurements", Json.arr [Json.num 2])]]) "A" =
      Json.arr [Json.num 2] ∧
    extractMeasurements
        (Json.arr [Json.obj [("timestamp", Json.str "t")],
          Json.obj [("timestamp", Json.str "u")]]) "A" =
      Json.arr [Json.obj [("timestamp", Json.str "t")],
        Json.obj [("timestamp", Json.str "u")]] ∧
    extractMeasurements
        (Json.arr [Json.obj [("eic", Json.str "B"),
            ("measurements", Json.arr [Json.num 2])],
          Json.obj [("eic", Json.str "C"),
            ("measurements", Json.arr [Json.num 3])]]) "A" =
      Json.arr [] :=
  ⟨c7_extract_measurements.1
     [("data", Json.arr [Json.obj [("timestamp", Json.str "t")]])] "A"
     ["meteringData"] "data" ["content", "measurements"]
     [Json.obj [("timestamp", Json.str "t")]] rfl
     (by
       intro k' hk' u hu
       simp only [List.mem_singleton] at hk'
       subst hk'
       simp [Json.get, List.find?] at hu)
     rfl (by simp),
   c7_extract_measurements.2.1 [("foo", Json.str "x")] "A"
     (by
       intro k hk v hv
       simp only [List.mem_cons, List.not_mem_nil, or_false] at hk
       rcases hk with rfl | rfl | rfl | rfl <;>
         simp [Json.get, List.find?] at hv),
   c7_extract_measurements.2.2.1 [("content", Json.str "weird")] "A"
     ["meteringData", "data"] "content" ["measurements"] (Json.str "weird") rfl
     (by
       intro k' hk' u hu
       simp only [List.mem_cons, List.not_mem_nil, or_false] at hk'
       rcases hk' with rfl | rfl <;> simp [Json.get, List.find?] at hu)
     rfl rfl (fun xs h => Json.noConfusion h),
   c7_extract_measurements.2.2.2.1 (Json.str "zap") "A"
     (fun xs h => Json.noConfusion h) (fun kvs h => Json.noConfusion h),
   c7_extract_measurements.2.2.2.2.1 "A"
     [Json.obj [("eic", Json.str "B"), ("measurements", Json.arr [Json.num 2])]]
     (Json.obj [("eic", Json.str "A"), ("measurements", Json.arr [Json.num 1])])
     []
     (by
       intro x hx
       simp only [List.mem_singleton] at hx
       subst hx
       exact ⟨rfl, rfl⟩)
     rfl rfl,
   c7_extract_measurements.2.2.2.2.2.1
     (Json.obj [("eic", Json.str "B"), ("measurements", Json.arr [Json.num 2])])
     "A" rfl,
   c7_extract_measurements.2.2.2.2.2.2.1
     (Json.obj [("timestamp", Json.str "t")])
     [Json.obj [("timestamp", Json.str "u")]] "A" rfl,
   c7_extract_measurements.2.2.2.2.2.2.2
     [Json.obj [("eic", Json.str "B"), ("measurements", Json.arr [Json.num 2])],
      Json.obj [("eic", Json.str "C"), ("measurements", Json.arr [Json.num 3])]]
     "A" (by simp)
     (by
       intro x hx
       simp only [List.mem_cons, List.not_mem_nil, or_false] at hx
       rcases hx with rfl | rfl <;> exact ⟨rfl, rfl⟩)⟩
